import Mathlib

/-!
Verification development for the question/answer parsing and grading core
of the interview test-evaluation service.

The Python sources embedded here are:
  * backend/services/grading.py          (GradingService)
  * backend/services/pdf_parser.py       (PDFParser.parse_questions cascade)
  * backend/services/multi_set_parser.py (MultiSetAnswerParser)

Strings are modelled as Lean `String` / `List Char`; Python floats are
modelled exactly as rationals `ℚ`; Python dicts are modelled as ordered
association lists `List (Nat × _)` with first-match lookup; exceptions are
modelled with `Except String`.  The concrete regular expressions of the
sources are embedded as direct recursive scanners whose behaviour mirrors
the backtracking semantics of the three patterns the code uses.
-/

set_option maxHeartbeats 1000000

/-- The Python `\s` class restricted to ASCII: space, tab, newline,
carriage return, vertical tab, form feed.  This is the whitespace set used
by `str.strip()` and the `\s` escapes in the source regexes. -/
def pyWs (c : Char) : Bool :=
  c == ' ' || c == '\t' || c == '\n' || c == '\r' || c == '\x0b' || c == '\x0c'

/-- Python `str.strip()` on a character list: drop whitespace from both ends. -/
def pstrip (l : List Char) : List Char :=
  ((l.dropWhile pyWs).reverse.dropWhile pyWs).reverse

/-- Numeric value of a digit string, as computed by Python `int(...)`. -/
def digitsVal (ds : List Char) : Nat :=
  ds.foldl (fun a c => 10 * a + (c.toNat - '0'.toNat)) 0

/-- Does `sub` occur as a prefix of `cs`? -/
def startsWithL : List Char → List Char → Bool
  | [], _ => true
  | _ :: _, [] => false
  | p :: ps, c :: cs => p == c && startsWithL ps cs

/-- Python substring containment `sub in cs` (contiguous substring). -/
def hasSub (sub : List Char) : List Char → Bool
  | [] => sub.isEmpty
  | c :: rest => startsWithL sub (c :: rest) || hasSub sub rest

/-- `line.split(sep)` for a single-character separator, Python semantics:
the result always has one more part than there are separators. -/
def splitChar (sep : Char) : List Char → List (List Char)
  | [] => [[]]
  | c :: rest =>
    if c = sep then [] :: splitChar sep rest
    else
      match splitChar sep rest with
      | [] => [[c]]
      | p :: ps => (c :: p) :: ps

/-- `text.split('\n')`. -/
def splitLines (cs : List Char) : List (List Char) := splitChar '\n' cs

/-- Uppercase every character (Python `str.upper()` on ASCII data). -/
def upperL (l : List Char) : List Char := l.map Char.toUpper

/-! ## Levenshtein similarity (the `Levenshtein.ratio` primitive)

`Levenshtein.ratio(a, b)` is `(|a| + |b| - d(a, b)) / (|a| + |b|)` where
`d` is the edit distance with insertion/deletion cost 1 and substitution
cost 2 (for those weights the optimal substitution is never cheaper than a
deletion plus an insertion, and matching equal characters is free). -/

/-- Weighted edit distance with costs: insert 1, delete 1, substitute 2. -/
def lev2 : List Char → List Char → Nat
  | [], ys => ys.length
  | _ :: xs, [] => xs.length + 1
  | x :: xs, y :: ys =>
    if x = y then lev2 xs ys
    else min (lev2 xs (y :: ys) + 1) (min (lev2 (x :: xs) ys + 1) (lev2 xs ys + 2))
termination_by xs ys => (xs.length, ys.length)

/-- `Levenshtein.ratio` on character lists, as an exact rational. -/
def levScore (a b : List Char) : ℚ :=
  ((a.length + b.length : ℚ) - lev2 a b) / (a.length + b.length : ℚ)

/-! ## GradingService (backend/services/grading.py) -/

/-- `text.lower()`. -/
def pyLower (s : String) : String := String.mk (s.data.map Char.toLower)

/-- `text.upper()`. -/
def pyUpper (s : String) : String := String.mk (s.data.map Char.toUpper)

/-- `text.strip()`. -/
def pyStrip (s : String) : String := String.mk (pstrip s.data)

/-- Python `sub in s` substring containment on strings. -/
def pyIn (sub s : String) : Bool := hasSub sub.data s.data

/-- `GradingService.calculate_similarity`: normalize (lowercase, strip)
both texts, return 0.0 if either is empty, else the Levenshtein ratio. -/
def calculate_similarity (text1 text2 : String) : ℚ :=
  let t1 := pyStrip (pyLower text1)
  let t2 := pyStrip (pyLower text2)
  if t1.data.isEmpty || t2.data.isEmpty then 0
  else levScore t1.data t2.data

/-- `GradingService.exact_match` (default `case_sensitive = False`). -/
def exact_match (candidate correct : String) (caseSensitive : Bool := false) : Bool :=
  if !caseSensitive then
    pyStrip (pyLower candidate) == pyStrip (pyLower correct)
  else
    pyStrip candidate == pyStrip correct

/-- `GradingService.fuzzy_match`: returns `(is_match, similarity_score)`. -/
def fuzzy_match (candidate correct : String) (threshold : ℚ) : Bool × ℚ :=
  let s := calculate_similarity candidate correct
  (decide (threshold ≤ s), s)

/-- A `\w` word character as used by `re.findall(r'\w+', ...)` (ASCII model). -/
def wordChar (c : Char) : Bool := c.isAlphanum || c == '_'

/-- Accumulating scanner behind `tokenize`: `acc` holds the reversed
current word-character run. -/
def tokenizeAux : List Char → List Char → List (List Char)
  | [], acc => if acc.isEmpty then [] else [acc.reverse]
  | c :: rest, acc =>
    if wordChar c then tokenizeAux rest (c :: acc)
    else if acc.isEmpty then tokenizeAux rest []
    else acc.reverse :: tokenizeAux rest []

/-- `re.findall(r'\w+', cs)`: the maximal runs of word characters. -/
def tokenize (cs : List Char) : List (List Char) := tokenizeAux cs []

/-- The fixed stop-word set of `keyword_match`. -/
def stopWords : Finset (List Char) :=
  (["the", "a", "an", "and", "or", "but", "in", "on", "at", "to", "for",
    "is", "are", "was", "were", "be", "been"].map String.data).toFinset

/-- The set of word tokens of a character list. -/
def tokensSet (cs : List Char) : Finset (List Char) := (tokenize cs).toFinset

/-- `GradingService.keyword_match`: returns `(is_match, match_percentage)`. -/
def keyword_match (candidate correct : String) (threshold : ℚ) : Bool × ℚ :=
  let correctWords := tokensSet (pyLower correct).data \ stopWords
  if correctWords = ∅ then (false, 0)
  else
    let candidateWords := tokensSet (pyLower candidate).data
    let pct : ℚ := ((correctWords ∩ candidateWords).card : ℚ) / (correctWords.card : ℚ)
    (decide (threshold ≤ pct), pct)

/-- Result of grading one answer: the dict
`{"is_correct": ..., "similarity_score": ...}`. -/
structure MatchResult where
  is_correct : Bool
  similarity_score : ℚ
deriving DecidableEq, Repr

/-- `GradingService.grade_answer`: MCQ auto-detection first
(`len(correct.strip().upper()) == 1 and ... in 'ABCD'`), then dispatch on
the requested method, defaulting to fuzzy for unknown methods. -/
def grade_answer (candidate correct : String) (method : String) (threshold : ℚ) : MatchResult :=
  let correct_stripped := pyUpper (pyStrip correct)
  let candidate_stripped := pyUpper (pyStrip candidate)
  if correct_stripped.length == 1 && pyIn correct_stripped "ABCD" then
    { is_correct := candidate_stripped == correct_stripped
      similarity_score := if candidate_stripped == correct_stripped then 1 else 0 }
  else if method == "exact" then
    let ic := exact_match candidate correct
    { is_correct := ic, similarity_score := if ic then 1 else 0 }
  else if method == "fuzzy" then
    let r := fuzzy_match candidate correct threshold
    { is_correct := r.1, similarity_score := r.2 }
  else if method == "keyword" then
    let r := keyword_match candidate correct threshold
    { is_correct := r.1, similarity_score := r.2 }
  else
    let r := fuzzy_match candidate correct threshold
    { is_correct := r.1, similarity_score := r.2 }

/-- One element of the `candidate_answers` list of `grade_test`. -/
structure CandidateAnswer where
  question_number : Nat
  answer_text : String
deriving DecidableEq, Repr

/-- One element of the `graded_answers` list built by `grade_test`. -/
structure GradedAnswer where
  question_number : Nat
  candidate_answer : String
  correct_answer : String
  is_correct : Bool
  similarity_score : ℚ
deriving DecidableEq, Repr

/-- The result dict of `grade_test`. -/
structure GradeReport where
  total_questions : Nat
  correct_answers : Nat
  score_percentage : ℚ
  passed : Bool
  graded_answers : List GradedAnswer
deriving DecidableEq, Repr

/-- Lookup in the `correct_answers` dict (modelled as an ordered
association list with unique keys; first match wins). -/
def dictLookup (d : List (Nat × String)) (k : Nat) : Option String :=
  (d.find? (fun p => p.1 == k)).map Prod.snd

/-- The `for answer_data in candidate_answers` loop of `grade_test`:
returns `(correct_count, graded_answers)`. -/
def gradeLoop (d : List (Nat × String)) (method : String) (threshold : ℚ) :
    List CandidateAnswer → Nat × List GradedAnswer
  | [] => (0, [])
  | ad :: rest =>
    match dictLookup d ad.question_number with
    | none => gradeLoop d method threshold rest
    | some corr =>
      let r := grade_answer ad.answer_text corr method threshold
      let t := gradeLoop d method threshold rest
      ((if r.is_correct then 1 else 0) + t.1,
       { question_number := ad.question_number
         candidate_answer := ad.answer_text
         correct_answer := corr
         is_correct := r.is_correct
         similarity_score := r.similarity_score } :: t.2)

/-- `GradingService.grade_test`. -/
def grade_test (cas : List CandidateAnswer) (d : List (Nat × String))
    (method : String) (threshold passing : ℚ) : GradeReport :=
  let total := d.length
  let r := gradeLoop d method threshold cas
  let score : ℚ := if 0 < total then (r.1 : ℚ) / (total : ℚ) * 100 else 0
  { total_questions := total
    correct_answers := r.1
    score_percentage := score
    passed := decide (passing ≤ score)
    graded_answers := r.2 }

/-! ## PDFParser.parse_questions (backend/services/pdf_parser.py)

Strategy 1 embeds the findall of `Q(\d+)\s*\n?(.*?)(?=Q\d+|\Z)` (DOTALL):
matches start at each occurrence of `Q` followed by a digit; the captured
block runs from after the digits (skipping the maximal whitespace run;
the optional `\n?` then matches the empty string) up to the next such
occurrence or the end of the text. -/

/-- Index of the first position where `Q` is immediately followed by a
digit, or the length of the list when there is none. -/
def qpos : List Char → Nat
  | [] => 0
  | 'Q' :: c :: rest => if c.isDigit then 0 else 1 + qpos (c :: rest)
  | _ :: rest => 1 + qpos rest

/-- `re.findall(r'Q(\d+)\s*\n?(.*?)(?=Q\d+|\Z)', text, re.DOTALL)`:
the list of `(question number, raw block)` matches. -/
def mcqScan (cs : List Char) : List (Nat × List Char) :=
  match cs with
  | [] => []
  | 'Q' :: c :: rest =>
    if c.isDigit then
      let ds := (c :: rest).takeWhile Char.isDigit
      let rest2 := (c :: rest).drop ds.length
      let rest3 := rest2.dropWhile pyWs
      (digitsVal ds, rest3.take (qpos rest3)) :: mcqScan (rest3.drop (qpos rest3))
    else mcqScan (c :: rest)
  | _ :: rest => mcqScan rest
termination_by cs.length
decreasing_by
  · have h2 := (List.dropWhile_sublist pyWs
      (l := (c :: rest).drop ((c :: rest).takeWhile Char.isDigit).length)).length_le
    simp only [List.length_drop, List.length_cons] at h2 ⊢
    omega
  · simp
  · simp

/-- The option-line regex `^([A-D])\.\s*(.+)` of strategy 1, applied to a
(line-internal) character list: an option letter, a period, skipped
whitespace, then at least one captured character.  When everything after
the maximal whitespace run is empty the engine backtracks one whitespace
character into the capture (this branch cannot fire on a stripped line). -/
def optionMatch (l : List Char) : Option (Char × List Char) :=
  match l with
  | c :: '.' :: rest =>
    if c == 'A' || c == 'B' || c == 'C' || c == 'D' then
      match rest.dropWhile pyWs with
      | [] =>
        match rest.reverse with
        | [] => none
        | w :: _ => some (c, [w])
      | r2 => some (c, r2)
    else none
  | _ => none

/-- Separator-joined concatenation, Python `sep.join(parts)`. -/
def joinSep (sep : List Char) : List (List Char) → List Char
  | [] => []
  | [x] => x
  | x :: y :: rest => x ++ sep ++ joinSep sep (y :: rest)

/-- The per-line loop of strategy 1 over a question block: accumulates
stem lines, finished options, and the currently open option. -/
def blockLoop : List (List Char) → List (List Char) → List (List Char) →
    Option (List Char) → List (List Char) × List (List Char) × Option (List Char)
  | [], stem, opts, cur => (stem, opts, cur)
  | line :: rest, stem, opts, cur =>
    let l := pstrip line
    if l.isEmpty then blockLoop rest stem opts cur
    else
      match optionMatch l with
      | some p =>
        let opts' := match cur with | some o => opts ++ [o] | none => opts
        blockLoop rest stem opts' (some (p.1 :: '.' :: ' ' :: p.2))
      | none =>
        match cur with
        | some o => blockLoop rest stem opts (some (o ++ ' ' :: l))
        | none => blockLoop rest (stem ++ [l]) opts cur

/-- Appending the still-open option to the finished options
(`if current_option: options.append(current_option)` after the loop). -/
def blockOpts (opts : List (List Char)) (cur : Option (List Char)) : List (List Char) :=
  match cur with
  | some o => opts ++ [o]
  | none => opts

/-- Joining stem and options into the full question text
(`' '.join(question_text)`, plus the newline-joined options if any). -/
def blockFull (stem opts : List (List Char)) : List Char :=
  if !opts.isEmpty then joinSep [' '] stem ++ '\n' :: joinSep ['\n'] opts
  else joinSep [' '] stem

/-- Strategy 1 processing of one matched block: build the stem and the
options, join them, and emit a record only when the result is non-empty. -/
def processBlock (n : Nat) (block : List Char) : Option (Nat × List Char) :=
  let r := blockLoop (splitLines (pstrip block)) [] [] none
  let full := blockFull r.1 (blockOpts r.2.1 r.2.2)
  if !full.isEmpty then some (n, pstrip full) else none

/-- The records produced by strategy 1. -/
def strat1Records (cs : List Char) : List (Nat × List Char) :=
  (mcqScan cs).filterMap (fun p => processBlock p.1 p.2)

/-! Strategy 2 embeds the findall of
`(?:^|\n)(?:Q(?:uestion)?\s*)?(\d+)[\.\:\)]\s*(.+?)(?=(?:\n(?:Q(?:uestion)?\s*)?\d+[\.\:\)]|\Z))`
with DOTALL and MULTILINE: matches are anchored at line starts; a starter
is an optional `Q`/`Question` prefix (with trailing whitespace), a digit
run and one of `. : )`; the lazy capture stops at the first newline that
is followed by another starter, or at the end of the input.  When the
capture would be empty but the preceding `\s*` consumed at least one
character, the engine backtracks and the capture becomes that last
whitespace character. -/

/-- Parse a digit run followed by a separator `. : )`.  Returns the
numeric value and the number of characters consumed. -/
def digitsSepParse (cs : List Char) : Option (Nat × Nat) :=
  let ds := cs.takeWhile Char.isDigit
  if ds.isEmpty then none
  else
    match cs.drop ds.length with
    | c :: _ =>
      if c == '.' || c == ':' || c == ')' then some (digitsVal ds, ds.length + 1) else none
    | [] => none

/-- The `Q`-prefixed and bare alternatives of the starter pattern. -/
def tryStarterQ (cs : List Char) : Option (Nat × Nat) :=
  match cs with
  | 'Q' :: rest =>
    let w := (rest.takeWhile pyWs).length
    match digitsSepParse (rest.drop w) with
    | some p => some (p.1, 1 + w + p.2)
    | none => digitsSepParse cs
  | _ => digitsSepParse cs

/-- The starter pattern `(?:Q(?:uestion)?\s*)?(\d+)[\.\:\)]`, trying the
`Question` prefix, then the `Q` prefix, then the bare digit run.  Returns
the captured number and the number of characters consumed. -/
def tryStarter (cs : List Char) : Option (Nat × Nat) :=
  match cs with
  | 'Q' :: 'u' :: 'e' :: 's' :: 't' :: 'i' :: 'o' :: 'n' :: rest =>
    let w := (rest.takeWhile pyWs).length
    match digitsSepParse (rest.drop w) with
    | some p => some (p.1, 8 + w + p.2)
    | none => tryStarterQ cs
  | _ => tryStarterQ cs

/-- Index of the first newline that is followed by a starter (the
lookahead boundary of strategy 2), or the length when there is none. -/
def bpos : List Char → Nat
  | [] => 0
  | '\n' :: rest => if (tryStarter rest).isSome then 0 else 1 + bpos rest
  | _ :: rest => 1 + bpos rest

/-- Index of the first newline, or the length when there is none. -/
def nlpos : List Char → Nat
  | [] => 0
  | '\n' :: _ => 0
  | _ :: rest => 1 + nlpos rest

/-- The findall scan of strategy 2 starting at a line start: the list of
`(number, raw capture)` matches. -/
def s2FindFrom (cs : List Char) : List (Nat × List Char) :=
  match tryStarter cs with
  | some nk =>
    let rest := cs.drop nk.2
    let rest2 := rest.dropWhile pyWs
    if rest2.isEmpty then
      match rest.reverse with
      | [] =>
        if h : nlpos cs < cs.length then s2FindFrom (cs.drop (nlpos cs + 1)) else []
      | w :: _ => [(nk.1, [w])]
    else
      match h2 : rest2.drop (bpos rest2) with
      | '\n' :: tl => (nk.1, rest2.take (bpos rest2)) :: s2FindFrom tl
      | _ => [(nk.1, rest2.take (bpos rest2))]
  | none =>
    if h : nlpos cs < cs.length then s2FindFrom (cs.drop (nlpos cs + 1)) else []
termination_by cs.length
decreasing_by
  · simp only [List.length_drop]
    omega
  · have h3 : ('\n' :: tl).length ≤ rest2.length := by
      rw [← h2]; simp [List.length_drop]
    have h4 : rest2.length ≤ rest.length :=
      (List.dropWhile_sublist pyWs (l := rest)).length_le
    have h5 : rest.length ≤ cs.length := by simp [rest, List.length_drop]
    simp only [List.length_cons] at h3
    omega
  · simp only [List.length_drop]
    omega

/-- Run of whitespace collapsed to single spaces: `re.sub(r'\s+', ' ', s)`. -/
def collapseWs (cs : List Char) : List Char :=
  match cs with
  | [] => []
  | c :: rest =>
    if pyWs c then ' ' :: collapseWs (rest.dropWhile pyWs)
    else c :: collapseWs rest
termination_by cs.length
decreasing_by
  · have := (List.dropWhile_sublist pyWs (l := rest)).length_le
    simp only [List.length_cons]
    omega
  · simp

/-- The records produced by strategy 2: each capture is stripped and its
whitespace runs collapsed; records are emitted unconditionally. -/
def strat2Records (cs : List Char) : List (Nat × List Char) :=
  (s2FindFrom cs).map (fun p => (p.1, collapseWs (pstrip p.2)))

/-! Strategy 3 (`_parse_questions_line_by_line`): iterate stripped lines;
a line matching `^(?:Q(?:uestion)?\s*)?(\d+)[\.\:\)]\s*(.+)` opens a new
record (flushing the previous one only when its accumulated text and its
number are both truthy); other non-blank lines are appended to the open
record; flush at the end. -/

/-- The line regex of strategy 3 on an already-stripped line: the starter,
skipped whitespace, then a greedy non-empty capture (with the same
one-character whitespace backtrack as strategy 2 when the remainder is
all whitespace). -/
def lineStart (l : List Char) : Option (Nat × List Char) :=
  match tryStarter l with
  | some nk =>
    match (l.drop nk.2).dropWhile pyWs with
    | [] =>
      match (l.drop nk.2).reverse with
      | [] => none
      | w :: _ => some (nk.1, [w])
    | r2 => some (nk.1, r2)
  | none => none

/-- Flush the open record of strategy 3: Python truthiness requires a
non-empty accumulated text and a non-zero question number. -/
def strat3Flush (cur : Option (Nat × List Char)) : List (Nat × List Char) :=
  match cur with
  | some p => if !p.2.isEmpty && p.1 != 0 then [(p.1, pstrip p.2)] else []
  | none => []

/-- The line loop of strategy 3. -/
def strat3Aux : List (List Char) → Option (Nat × List Char) → List (Nat × List Char)
  | [], cur => strat3Flush cur
  | line :: rest, cur =>
    let l := pstrip line
    if l.isEmpty then strat3Aux rest cur
    else
      match lineStart l with
      | some p => strat3Flush cur ++ strat3Aux rest (some p)
      | none =>
        match cur with
        | some p => strat3Aux rest (some (p.1, p.2 ++ ' ' :: l))
        | none => strat3Aux rest none

/-- The records produced by strategy 3. -/
def strat3Records (cs : List Char) : List (Nat × List Char) :=
  strat3Aux (splitLines cs) none

/-- `PDFParser.parse_questions` on extracted text: strategy 1 is adopted
whenever its regex finds at least one match (`if matches:`), otherwise
strategy 2's records are used, and strategy 3 runs only when strategy 2
produced none (`if not questions:`). -/
def parse_questions (cs : List Char) : List (Nat × List Char) :=
  if !(mcqScan cs).isEmpty then strat1Records cs
  else if !(strat2Records cs).isEmpty then strat2Records cs
  else strat3Records cs

/-! ## MultiSetAnswerParser (backend/services/multi_set_parser.py)

The function is modelled from the point where the PDF text has been
extracted (text extraction itself is an external primitive).  `ValueError`
is modelled as `Except.error` with the exact message strings. -/

/-- Prepend a character to the first part of a non-empty partition. -/
def consHead (c : Char) : List (List Char) → List (List Char)
  | [] => [[c]]
  | p :: ps => (c :: p) :: ps

/-- `re.split(r'\s{2,}', line)`: split on each maximal whitespace run of
length at least two; single whitespace characters stay inside parts. -/
def splitWs2 (cs : List Char) : List (List Char) :=
  match cs with
  | [] => [[]]
  | c :: rest =>
    if pyWs c then
      if (rest.takeWhile pyWs).isEmpty then consHead c (splitWs2 rest)
      else [] :: splitWs2 (rest.dropWhile pyWs)
    else consHead c (splitWs2 rest)
termination_by cs.length
decreasing_by
  · simp
  · have := (List.dropWhile_sublist pyWs (l := rest)).length_le
    simp only [List.length_cons]
    omega
  · simp

/-- Header detection: a line whose uppercase form contains markers for all
three sets, in spaced or unspaced spelling. -/
def isHeaderLine (l : List Char) : Bool :=
  let u := upperL l
  (hasSub "SET A".data u || hasSub "SETA".data u) &&
  (hasSub "SET B".data u || hasSub "SETB".data u) &&
  (hasSub "SET C".data u || hasSub "SETC".data u)

/-- `re.match(r'^[Qq]?[0]*(\d+)', stripped)`: an optional `Q`/`q`, leading
zeros, then digits.  Since `[0]*(\d+)` together consume exactly the
maximal digit run and stripping leading zeros does not change `int(...)`,
the captured value is the value of the whole digit run; the match fails
exactly when that run is empty. -/
def qNumParse (l : List Char) : Option Nat :=
  let l1 := match l with
    | 'Q' :: rest => rest
    | 'q' :: rest => rest
    | _ => l
  let ds := l1.takeWhile Char.isDigit
  if ds.isEmpty then none else some (digitsVal ds)

/-- Delimiter detection per row: tabs if present, else pipes, else runs of
two-or-more whitespace characters. -/
def splitRow (line : List Char) : List (List Char) :=
  if line.contains '\t' then splitChar '\t' line
  else if line.contains '|' then splitChar '|' line
  else splitWs2 line

/-- The comprehension `[p.strip() for p in parts if p.strip()]`. -/
def cleanParts (ps : List (List Char)) : List (List Char) :=
  (ps.map pstrip).filter (fun p => !p.isEmpty)

/-- The three answer maps `SET A`, `SET B`, `SET C` (insertion-ordered
dicts with overwrite-in-place update). -/
abbrev MSState : Type :=
  List (Nat × List Char) × List (Nat × List Char) × List (Nat × List Char)

/-- Python dict assignment `d[k] = v`: overwrite in place, else append. -/
def dictInsert (k : Nat) (v : List Char) : List (Nat × List Char) → List (Nat × List Char)
  | [] => [(k, v)]
  | p :: rest => if p.1 = k then (k, v) :: rest else p :: dictInsert k v rest

/-- One iteration of the row loop of `parse_multi_set_answers`. -/
def rowStep (st : MSState) (line : List Char) : MSState :=
  let stripped := pstrip line
  if stripped.isEmpty || hasSub "SET".data (upperL stripped) || hasSub "Question".data stripped then
    st
  else
    match qNumParse stripped with
    | none => st
    | some qn =>
      match cleanParts (splitRow line) with
      | _ :: p1 :: p2 :: p3 :: _ =>
        let sa := pstrip p1
        let sb := pstrip p2
        let sc := pstrip p3
        ((if !sa.isEmpty then dictInsert qn sa st.1 else st.1),
         (if !sb.isEmpty then dictInsert qn sb st.2.1 else st.2.1),
         (if !sc.isEmpty then dictInsert qn sc st.2.2 else st.2.2))
      | _ => st

/-- The three maps after the full row scan, starting from empty dicts. -/
def multiSetMaps (cs : List Char) : MSState :=
  (splitLines cs).foldl rowStep ([], [], [])

/-- `MultiSetAnswerParser.parse_multi_set_answers` on extracted text:
header verification first, then the row scan, then the non-emptiness
validation of the three sets in dict order. -/
def parse_multi_set (cs : List Char) : Except String MSState :=
  let lines := splitLines cs
  if !(lines.any isHeaderLine) then
    .error "Could not find SET A, SET B, SET C headers in PDF"
  else
    let r := multiSetMaps cs
    if r.1.isEmpty then .error "No answers found for SET A. Please check PDF format."
    else if r.2.1.isEmpty then .error "No answers found for SET B. Please check PDF format."
    else if r.2.2.isEmpty then .error "No answers found for SET C. Please check PDF format."
    else .ok r

/-- A character list containing at least one non-whitespace character. -/
def hasInk (l : List Char) : Prop := ∃ c ∈ l, pyWs c = false

/-! ## Helper lemmas about whitespace stripping -/

theorem dropWhile_head_false (p : Char → Bool) :
    ∀ (l : List Char) (c : Char) (cs : List Char), l.dropWhile p = c :: cs → p c = false := by
  intro l
  induction l with
  | nil => intro c cs h; simp at h
  | cons a as ih =>
    intro c cs h
    rw [List.dropWhile_cons] at h
    by_cases hp : p a
    · rw [if_pos hp] at h
      exact ih c cs h
    · rw [if_neg hp] at h
      cases h
      simpa using hp

theorem dropWhile_eq_self (p : Char → Bool) (l : List Char)
    (h : ∀ c cs, l = c :: cs → p c = false) : l.dropWhile p = l := by
  cases l with
  | nil => simp
  | cons a as =>
    rw [List.dropWhile_cons, if_neg]
    simp [h a as rfl]

theorem pstrip_eq_nil_iff (l : List Char) : pstrip l = [] ↔ ∀ c ∈ l, pyWs c = true := by
  unfold pstrip
  rw [List.reverse_eq_nil_iff, List.dropWhile_eq_nil_iff]
  constructor
  · intro h c hc
    have hsplit := List.takeWhile_append_dropWhile pyWs l
    rw [← hsplit] at hc
    rcases List.mem_append.mp hc with h1 | h2
    · exact List.mem_takeWhile_imp h1
    · exact h c (List.mem_reverse.mpr h2)
  · intro h a ha
    rw [List.mem_reverse] at ha
    exact h a ((List.dropWhile_sublist pyWs).subset ha)

theorem pstrip_ne_nil_of_ink (l : List Char) (h : hasInk l) : pstrip l ≠ [] := by
  intro hnil
  obtain ⟨c, hc, hw⟩ := h
  have := (pstrip_eq_nil_iff l).mp hnil c hc
  rw [this] at hw
  cases hw

theorem pstrip_is_prefix (l : List Char) : pstrip l <+: l.dropWhile pyWs := by
  have h := List.dropWhile_suffix (l := (l.dropWhile pyWs).reverse) pyWs
  have h2 := List.reverse_prefix.mpr h
  simpa [pstrip] using h2

theorem pstrip_head_false (l : List Char) (c : Char) (cs : List Char)
    (h : pstrip l = c :: cs) : pyWs c = false := by
  obtain ⟨t, ht⟩ := pstrip_is_prefix l
  rw [h] at ht
  exact dropWhile_head_false pyWs l c (cs ++ t) (by rw [← ht]; rfl)

theorem pstrip_reverse (l : List Char) :
    (pstrip l).reverse = (l.dropWhile pyWs).reverse.dropWhile pyWs := by
  unfold pstrip
  rw [List.reverse_reverse]

theorem pstrip_rev_head_false (l : List Char) (c : Char) (cs : List Char)
    (h : (pstrip l).reverse = c :: cs) : pyWs c = false := by
  rw [pstrip_reverse] at h
  exact dropWhile_head_false pyWs _ c cs h

theorem pstrip_ink (l : List Char) (h : pstrip l ≠ []) : hasInk (pstrip l) := by
  cases hp : pstrip l with
  | nil => exact absurd hp h
  | cons c cs => exact ⟨c, by simp, pstrip_head_false l c cs hp⟩

theorem pstrip_idem (l : List Char) : pstrip (pstrip l) = pstrip l := by
  have h1 : (pstrip l).dropWhile pyWs = pstrip l := by
    apply dropWhile_eq_self
    intro c cs h
    exact pstrip_head_false l c cs h
  have h2 : (pstrip l).reverse.dropWhile pyWs = (pstrip l).reverse := by
    apply dropWhile_eq_self
    intro c cs h
    exact pstrip_rev_head_false l c cs h
  rw [show pstrip (pstrip l)
      = (((pstrip l).dropWhile pyWs).reverse.dropWhile pyWs).reverse from rfl,
    h1, h2, List.reverse_reverse]

theorem mem_joinSep (sep : List Char) :
    ∀ (ls : List (List Char)) (l : List Char) (c : Char), c ∈ l → l ∈ ls → c ∈ joinSep sep ls := by
  intro ls
  induction ls with
  | nil => intro l c _ h; simp at h
  | cons x xs ih =>
    intro l c hc hl
    cases xs with
    | nil =>
      simp only [List.mem_singleton] at hl
      subst hl
      simpa [joinSep] using hc
    | cons y ys =>
      simp only [joinSep, List.mem_append]
      rcases List.mem_cons.mp hl with h1 | h2
      · subst h1; exact Or.inl (Or.inl hc)
      · exact Or.inr (ih l c hc h2)

/-! ## Helper lemmas about the Levenshtein model -/

theorem lev2_self : ∀ xs : List Char, lev2 xs xs = 0 := by
  intro xs
  induction xs with
  | nil => simp [lev2]
  | cons x xs ih => simp [lev2, ih]

theorem lev2_comm : ∀ xs ys : List Char, lev2 xs ys = lev2 ys xs := by
  intro xs
  induction xs with
  | nil => intro ys; cases ys <;> simp [lev2]
  | cons x xs ih =>
    intro ys
    induction ys with
    | nil => simp [lev2]
    | cons y ys ih2 =>
      simp only [lev2]
      by_cases h : x = y
      · subst h
        simp [ih ys]
      · rw [if_neg h, if_neg (Ne.symm h)]
        have a1 := ih (y :: ys)
        have a2 := ih ys
        omega

theorem lev2_le : ∀ xs ys : List Char, lev2 xs ys ≤ xs.length + ys.length := by
  intro xs
  induction xs with
  | nil => intro ys; cases ys <;> simp [lev2]
  | cons x xs ih =>
    intro ys
    induction ys with
    | nil => simp [lev2]
    | cons y ys ih2 =>
      simp only [lev2, List.length_cons]
      by_cases h : x = y
      · rw [if_pos h]
        have := ih ys
        omega
      · rw [if_neg h]
        have a1 := ih (y :: ys)
        simp only [List.length_cons] at a1
        omega

theorem levScore_nonneg (a b : List Char) : 0 ≤ levScore a b := by
  unfold levScore
  apply div_nonneg
  · have h := lev2_le a b
    have : (lev2 a b : ℚ) ≤ (a.length : ℚ) + (b.length : ℚ) := by exact_mod_cast h
    linarith
  · positivity

theorem levScore_le_one (a b : List Char) : levScore a b ≤ 1 := by
  unfold levScore
  by_cases h : (a.length + b.length : ℚ) = 0
  · rw [h]
    simp
  · rw [div_le_one]
    · have : (0 : ℚ) ≤ (lev2 a b : ℚ) := by positivity
      linarith
    · have h0 : (0 : ℚ) ≤ (a.length + b.length : ℚ) := by positivity
      exact lt_of_le_of_ne h0 (Ne.symm h)

theorem levScore_comm (a b : List Char) : levScore a b = levScore b a := by
  unfold levScore
  rw [lev2_comm, add_comm (a.length : ℚ) (b.length : ℚ)]

theorem levScore_self (a : List Char) (h : a ≠ []) : levScore a a = 1 := by
  unfold levScore
  rw [lev2_self]
  have hl : 0 < a.length := List.length_pos.mpr h
  have : ((a.length : ℚ) + (a.length : ℚ)) ≠ 0 := by
    have : (0 : ℚ) < (a.length : ℚ) := by exact_mod_cast hl
    linarith
  rw [Nat.cast_zero, sub_zero, div_self this]

/-! ## Helper lemmas about the grading service -/

theorem calculate_similarity_comm (x y : String) :
    calculate_similarity x y = calculate_similarity y x := by
  simp only [calculate_similarity]
  rw [Bool.or_comm, levScore_comm]

theorem calculate_similarity_nonneg (x y : String) : 0 ≤ calculate_similarity x y := by
  simp only [calculate_similarity]
  split
  · exact le_refl 0
  · exact levScore_nonneg _ _

theorem calculate_similarity_le_one (x y : String) : calculate_similarity x y ≤ 1 := by
  simp only [calculate_similarity]
  split
  · norm_num
  · exact levScore_le_one _ _

theorem keyword_match_snd_nonneg (c a : String) (t : ℚ) : 0 ≤ (keyword_match c a t).2 := by
  simp only [keyword_match]
  split
  · exact le_refl 0
  · apply div_nonneg <;> positivity

theorem keyword_match_snd_le_one (c a : String) (t : ℚ) : (keyword_match c a t).2 ≤ 1 := by
  simp only [keyword_match]
  split
  · norm_num
  · rename_i hne
    have hpos : 0 < (tokensSet (pyLower a).data \ stopWords).card :=
      Finset.card_pos.mpr (Finset.nonempty_iff_ne_empty.mpr hne)
    simp only
    rw [div_le_one (by exact_mod_cast hpos)]
    exact_mod_cast Finset.card_le_card Finset.inter_subset_left

theorem grade_answer_score_cases (c a m : String) (t : ℚ) :
    (grade_answer c a m t).similarity_score = 0 ∨ (grade_answer c a m t).similarity_score = 1 ∨
    (grade_answer c a m t).similarity_score = calculate_similarity c a ∨
    (grade_answer c a m t).similarity_score = (keyword_match c a t).2 := by
  simp only [grade_answer, fuzzy_match]
  split
  · split
    · right; left; rfl
    · left; rfl
  · split
    · split
      · right; left; rfl
      · left; rfl
    · split
      · right; right; left; rfl
      · split
        · right; right; right; rfl
        · right; right; left; rfl

theorem grade_answer_score_bounds (c a m : String) (t : ℚ) :
    0 ≤ (grade_answer c a m t).similarity_score ∧ (grade_answer c a m t).similarity_score ≤ 1 := by
  rcases grade_answer_score_cases c a m t with h | h | h | h <;> rw [h]
  · norm_num
  · norm_num
  · exact ⟨calculate_similarity_nonneg c a, calculate_similarity_le_one c a⟩
  · exact ⟨keyword_match_snd_nonneg c a t, keyword_match_snd_le_one c a t⟩

/-! ## Helper lemmas about grade_test -/

theorem gradeLoop_filter (d : List (Nat × String)) (m : String) (t : ℚ) :
    ∀ cas : List CandidateAnswer,
      gradeLoop d m t (cas.filter (fun ad => (dictLookup d ad.question_number).isSome)) =
      gradeLoop d m t cas := by
  intro cas
  induction cas with
  | nil => rfl
  | cons ad rest ih =>
    cases hl : dictLookup d ad.question_number with
    | none => simp [gradeLoop, List.filter_cons, hl, ih]
    | some corr => simp [gradeLoop, List.filter_cons, hl, ih]

theorem gradeLoop_fst_le (d : List (Nat × String)) (m : String) (t : ℚ) :
    ∀ cas : List CandidateAnswer, (gradeLoop d m t cas).1 ≤ (gradeLoop d m t cas).2.length := by
  intro cas
  induction cas with
  | nil => simp [gradeLoop]
  | cons ad rest ih =>
    cases hl : dictLookup d ad.question_number with
    | none => simpa [gradeLoop, hl] using ih
    | some corr =>
      simp only [gradeLoop, hl, List.length_cons]
      split <;> omega

theorem gradeLoop_snd_numbers (d : List (Nat × String)) (m : String) (t : ℚ) :
    ∀ cas : List CandidateAnswer,
      (gradeLoop d m t cas).2.map (fun g => g.question_number) =
      (cas.filter (fun ad => (dictLookup d ad.question_number).isSome)).map
        (fun ad => ad.question_number) := by
  intro cas
  induction cas with
  | nil => rfl
  | cons ad rest ih =>
    cases hl : dictLookup d ad.question_number with
    | none => simp [gradeLoop, List.filter_cons, hl, ih]
    | some corr => simp [gradeLoop, List.filter_cons, hl, ih]

theorem found_number_mem_keys (d : List (Nat × String)) (ad : CandidateAnswer)
    (h : (dictLookup d ad.question_number).isSome) :
    ad.question_number ∈ d.map Prod.fst := by
  unfold dictLookup at h
  cases hf : d.find? (fun p => p.1 == ad.question_number) with
  | none => rw [hf] at h; simp at h
  | some p =>
    have hp := List.find?_some hf
    have hm := List.mem_of_find?_eq_some hf
    simp only [beq_iff_eq] at hp
    rw [← hp]
    exact List.mem_map_of_mem Prod.fst hm

theorem filter_found_length_le (d : List (Nat × String)) (cas : List CandidateAnswer)
    (h : (cas.map (fun ad => ad.question_number)).Nodup) :
    (cas.filter (fun ad => (dictLookup d ad.question_number).isSome)).length ≤ d.length := by
  have hsub : List.Sublist
      ((cas.filter (fun ad => (dictLookup d ad.question_number).isSome)).map
        (fun ad => ad.question_number))
      (cas.map (fun ad => ad.question_number)) :=
    (List.filter_sublist cas).map _
  have hnd : ((cas.filter (fun ad => (dictLookup d ad.question_number).isSome)).map
      (fun ad => ad.question_number)).Nodup := h.sublist hsub
  have hss : ((cas.filter (fun ad => (dictLookup d ad.question_number).isSome)).map
      (fun ad => ad.question_number)) ⊆ d.map Prod.fst := by
    intro x hx
    simp only [List.mem_map, List.mem_filter] at hx
    obtain ⟨ad, ⟨_, hfound⟩, rfl⟩ := hx
    exact found_number_mem_keys d ad (by simpa using hfound)
  have h1 := List.toFinset_card_of_nodup hnd
  have h2 : ((cas.filter (fun ad => (dictLookup d ad.question_number).isSome)).map
      (fun ad => ad.question_number)).toFinset ⊆ (d.map Prod.fst).toFinset := by
    intro x hx
    simp only [List.mem_toFinset] at hx ⊢
    exact hss hx
  have h3 := Finset.card_le_card h2
  have h4 := (d.map Prod.fst).toFinset_card_le
  have h5 : ((cas.filter (fun ad => (dictLookup d ad.question_number).isSome)).map
      (fun ad => ad.question_number)).length =
      (cas.filter (fun ad => (dictLookup d ad.question_number).isSome)).length :=
    List.length_map _ _
  have h6 : (d.map Prod.fst).length = d.length := List.length_map _ _
  omega

theorem gradeLoop_fst_le_total (d : List (Nat × String)) (m : String) (t : ℚ)
    (cas : List CandidateAnswer) (h : (cas.map (fun ad => ad.question_number)).Nodup) :
    (gradeLoop d m t cas).1 ≤ d.length := by
  have h1 := gradeLoop_fst_le d m t cas
  have h2 : (gradeLoop d m t cas).2.length =
      (cas.filter (fun ad => (dictLookup d ad.question_number).isSome)).length := by
    have := gradeLoop_snd_numbers d m t cas
    have hlen := congrArg List.length this
    simpa [List.length_map] using hlen
  have h3 := filter_found_length_le d cas h
  omega

theorem gradeLoop_scores (d : List (Nat × String)) (m : String) (t : ℚ) :
    ∀ (cas : List CandidateAnswer) (g : GradedAnswer), g ∈ (gradeLoop d m t cas).2 →
      0 ≤ g.similarity_score ∧ g.similarity_score ≤ 1 := by
  intro cas
  induction cas with
  | nil => intro g hg; simp [gradeLoop] at hg
  | cons ad rest ih =>
    intro g hg
    cases hl : dictLookup d ad.question_number with
    | none =>
      rw [show gradeLoop d m t (ad :: rest) = gradeLoop d m t rest by simp [gradeLoop, hl]] at hg
      exact ih g hg
    | some corr =>
      simp only [gradeLoop, hl] at hg
      rcases List.mem_cons.mp hg with h1 | h2
      · subst h1
        exact grade_answer_score_bounds ad.answer_text corr m t
      · exact ih g h2

/-! ## Helper lemmas about the question-parser strategies -/

theorem optionMatch_ink (l : List Char) (p : Char × List Char)
    (h : optionMatch l = some p) : pyWs p.1 = false := by
  unfold optionMatch at h
  split at h
  · rename_i c rest
    split at h
    · rename_i hlet
      have hc : c = 'A' ∨ c = 'B' ∨ c = 'C' ∨ c = 'D' := by
        simp only [Bool.or_eq_true, beq_iff_eq] at hlet
        tauto
      have hp1 : p.1 = c := by
        split at h
        · split at h
          · cases h
          · cases h; rfl
        · cases h; rfl
      rw [hp1]
      rcases hc with rfl | rfl | rfl | rfl <;> rfl
    · cases h
  · cases h

theorem blockLoop_ink (lines : List (List Char)) :
    ∀ (stem opts : List (List Char)) (cur : Option (List Char)),
      (∀ l ∈ stem, hasInk l) → (∀ l ∈ opts, hasInk l) →
      (∀ o, cur = some o → hasInk o) →
      (∀ l ∈ (blockLoop lines stem opts cur).1, hasInk l) ∧
      (∀ l ∈ (blockLoop lines stem opts cur).2.1, hasInk l) ∧
      (∀ o, (blockLoop lines stem opts cur).2.2 = some o → hasInk o) := by
  induction lines with
  | nil =>
    intro stem opts cur hs ho hc
    exact ⟨hs, ho, hc⟩
  | cons line rest ih =>
    intro stem opts cur hs ho hc
    simp only [blockLoop]
    split
    · exact ih stem opts cur hs ho hc
    · rename_i hne
      cases hom : optionMatch (pstrip line) with
      | some p =>
        simp only [hom]
        apply ih
        · exact hs
        · intro l hl
          cases hcur : cur with
          | none => exact ho l (by simpa [hcur] using hl)
          | some o =>
            rw [hcur] at hl
            rcases List.mem_append.mp hl with h1 | h2
            · exact ho l h1
            · rw [List.mem_singleton] at h2
              subst h2
              exact hc l hcur
        · intro o hoo
          cases hoo
          exact ⟨p.1, by simp, optionMatch_ink (pstrip line) p hom⟩
      | none =>
        simp only [hom]
        cases hcur : cur with
        | some o =>
          apply ih stem opts _ hs ho
          intro o2 ho2
          cases ho2
          obtain ⟨c, hcm, hcw⟩ := hc o hcur
          exact ⟨c, List.mem_append.mpr (Or.inl hcm), hcw⟩
        | none =>
          apply ih _ opts none _ ho (by simp)
          intro l hl
          rcases List.mem_append.mp hl with h1 | h2
          · exact hs l h1
          · rw [List.mem_singleton] at h2
            subst h2
            have hpn : pstrip line ≠ [] := by
              intro hx
              rw [hx] at hne
              simp at hne
            exact pstrip_ink line hpn

theorem blockOpts_ink (opts : List (List Char)) (cur : Option (List Char))
    (ho : ∀ l ∈ opts, hasInk l) (hc : ∀ o, cur = some o → hasInk o) :
    ∀ l ∈ blockOpts opts cur, hasInk l := by
  cases cur with
  | none => simpa [blockOpts] using ho
  | some o =>
    intro l hl
    simp only [blockOpts] at hl
    rcases List.mem_append.mp hl with h1 | h2
    · exact ho l h1
    · rw [List.mem_singleton] at h2
      subst h2
      exact hc _ rfl

theorem blockFull_ink (stem opts : List (List Char))
    (hs : ∀ l ∈ stem, hasInk l) (ho : ∀ l ∈ opts, hasInk l)
    (hne : blockFull stem opts ≠ []) : hasInk (blockFull stem opts) := by
  rcases opts with _ | ⟨o, os⟩
  · simp only [blockFull, List.isEmpty_nil, Bool.not_true, Bool.false_eq_true, if_false] at hne ⊢
    rcases stem with _ | ⟨s, ss⟩
    · exact absurd rfl hne
    · obtain ⟨c, hcm, hcw⟩ := hs s (by simp)
      exact ⟨c, mem_joinSep [' '] (s :: ss) s c hcm (by simp), hcw⟩
  · simp only [blockFull, List.isEmpty_cons, Bool.not_false, if_true]
    obtain ⟨c, hcm, hcw⟩ := ho o (by simp)
    refine ⟨c, ?_, hcw⟩
    refine List.mem_append.mpr (Or.inr (List.mem_cons.mpr (Or.inr ?_)))
    exact mem_joinSep ['\n'] (o :: os) o c hcm (by simp)

theorem processBlock_some_ne_nil (n : Nat) (block : List Char) (p : Nat × List Char)
    (h : processBlock n block = some p) : p.2 ≠ [] := by
  obtain ⟨hstem, hopts, hcur⟩ :=
    blockLoop_ink (splitLines (pstrip block)) [] [] none (by simp) (by simp) (by simp)
  simp only [processBlock] at h
  split at h
  · rename_i hne
    cases h
    apply pstrip_ne_nil_of_ink
    apply blockFull_ink _ _ hstem (blockOpts_ink _ _ hopts hcur)
    intro hx
    rw [hx] at hne
    simp at hne
  · cases h

theorem strat1_no_empty (cs : List Char) :
    ∀ p ∈ strat1Records cs, p.2 ≠ [] := by
  intro p hp
  unfold strat1Records at hp
  obtain ⟨q, _, hq⟩ := List.mem_filterMap.mp hp
  exact processBlock_some_ne_nil q.1 q.2 p hq

theorem lineStart_ink (line : List Char) (p : Nat × List Char)
    (h : lineStart (pstrip line) = some p) : hasInk p.2 := by
  cases hts : tryStarter (pstrip line) with
  | none => simp [lineStart, hts] at h
  | some nk =>
    simp only [lineStart, hts] at h
    cases hdw : ((pstrip line).drop nk.2).dropWhile pyWs with
    | cons c cs2 =>
      rw [hdw] at h
      simp only [] at h
      cases h
      exact ⟨c, by simp, dropWhile_head_false pyWs _ c cs2 hdw⟩
    | nil =>
      rw [hdw] at h
      simp only [] at h
      cases hrev : ((pstrip line).drop nk.2).reverse with
      | nil => rw [hrev] at h; simp at h
      | cons w ws =>
        exfalso
        have hwmem : w ∈ (pstrip line).drop nk.2 := by
          rw [← List.mem_reverse, hrev]
          simp
        have hwws : pyWs w = true :=
          List.dropWhile_eq_nil_iff.mp hdw w hwmem
        have hsplit := List.take_append_drop nk.2 (pstrip line)
        have hrevfull : (pstrip line).reverse =
            w :: (ws ++ ((pstrip line).take nk.2).reverse) := by
          rw [← hsplit, List.reverse_append, hrev]
          simp
        have hbad := pstrip_rev_head_false line w _ hrevfull
        rw [hwws] at hbad
        cases hbad

theorem strat3Flush_no_empty (cur : Option (Nat × List Char))
    (hcur : ∀ p0 : Nat × List Char, cur = some p0 → hasInk p0.2) :
    ∀ p ∈ strat3Flush cur, p.2 ≠ [] := by
  cases cur with
  | none => intro p hp; simp [strat3Flush] at hp
  | some p0 =>
    intro p hp
    simp only [strat3Flush] at hp
    split at hp
    · rw [List.mem_singleton] at hp
      subst hp
      exact pstrip_ne_nil_of_ink _ (hcur p0 rfl)
    · simp at hp

theorem strat3Aux_no_empty :
    ∀ (lines : List (List Char)) (cur : Option (Nat × List Char)),
      (∀ p0 : Nat × List Char, cur = some p0 → hasInk p0.2) →
      ∀ p ∈ strat3Aux lines cur, p.2 ≠ [] := by
  intro lines
  induction lines with
  | nil =>
    intro cur hcur
    exact strat3Flush_no_empty cur hcur
  | cons line rest ih =>
    intro cur hcur p hp
    simp only [strat3Aux] at hp
    split at hp
    · exact ih cur hcur p hp
    · split at hp
      · rename_i q hls
        rcases List.mem_append.mp hp with h1 | h2
        · exact strat3Flush_no_empty cur hcur p h1
        · refine ih (some q) ?_ p h2
          intro p0 hp0
          cases hp0
          exact lineStart_ink line q hls
      · cases cur with
        | some p0 =>
          simp only [] at hp
          refine ih _ ?_ p hp
          intro p1 hp1
          cases hp1
          obtain ⟨c, hcm, hcw⟩ := hcur p0 rfl
          exact ⟨c, List.mem_append.mpr (Or.inl hcm), hcw⟩
        | none =>
          simp only [] at hp
          exact ih none (by simp) p hp

theorem strat3_no_empty (cs : List Char) :
    ∀ p ∈ strat3Records cs, p.2 ≠ [] := by
  intro p hp
  exact strat3Aux_no_empty (splitLines cs) none (by simp) p hp

/-! ## Claim theorems -/

/-- Claim C1: for every candidate and correct string whose trimmed,
uppercased form is exactly one character among A, B, C, D, `grade_answer`
returns `is_correct = (trimmed uppercased candidate == trimmed uppercased
correct)` with similarity 1.0 on match and 0.0 otherwise, for every
requested method string and every threshold. -/
theorem C1_mcq_auto_detect (candidate correct method : String) (threshold : ℚ)
    (h : pyUpper (pyStrip correct) = "A" ∨ pyUpper (pyStrip correct) = "B" ∨
         pyUpper (pyStrip correct) = "C" ∨ pyUpper (pyStrip correct) = "D") :
    grade_answer candidate correct method threshold =
      { is_correct := pyUpper (pyStrip candidate) == pyUpper (pyStrip correct)
        similarity_score :=
          if pyUpper (pyStrip candidate) == pyUpper (pyStrip correct) then 1 else 0 } := by
  rcases h with h | h | h | h <;>
    (simp only [grade_answer, h]; rw [if_pos (by decide)])

theorem C1_witness :
    (pyUpper (pyStrip " a ") = "A" ∨ pyUpper (pyStrip " a ") = "B" ∨
     pyUpper (pyStrip " a ") = "C" ∨ pyUpper (pyStrip " a ") = "D") ∧
    grade_answer "b" " a " "keyword" 5 =
      { is_correct := pyUpper (pyStrip "b") == pyUpper (pyStrip " a ")
        similarity_score :=
          if pyUpper (pyStrip "b") == pyUpper (pyStrip " a ") then 1 else 0 } :=
  ⟨Or.inl (by decide), C1_mcq_auto_detect "b" " a " "keyword" 5 (Or.inl (by decide))⟩

/-- Claim C7: fuzzy similarity is symmetric, returns 0.0 whenever either
normalized (lowercased, stripped) string is empty (including both empty),
and is reflexive with value 1.0 for strings that are non-empty after
normalization. -/
theorem C7_similarity_props (x y : String) :
    calculate_similarity x y = calculate_similarity y x ∧
    ((pyStrip (pyLower x)).data = [] ∨ (pyStrip (pyLower y)).data = [] →
      calculate_similarity x y = 0) ∧
    ((pyStrip (pyLower x)).data ≠ [] → calculate_similarity x x = 1) := by
  refine ⟨calculate_similarity_comm x y, ?_, ?_⟩
  · intro h
    simp only [calculate_similarity]
    rw [if_pos]
    rcases h with h | h <;> simp [h]
  · intro h
    simp only [calculate_similarity]
    rw [if_neg (by simp [h])]
    exact levScore_self _ h

theorem C7_witness :
    calculate_similarity "ab" "ba" = calculate_similarity "ba" "ab" ∧
    ((pyStrip (pyLower "  ")).data = [] ∨ (pyStrip (pyLower "ba")).data = []) ∧
    calculate_similarity "  " "ba" = 0 ∧
    (pyStrip (pyLower "ab")).data ≠ [] ∧
    calculate_similarity "ab" "ab" = 1 :=
  ⟨(C7_similarity_props "ab" "ba").1,
   Or.inl (by decide),
   (C7_similarity_props "  " "ba").2.1 (Or.inl (by decide)),
   by decide,
   (C7_similarity_props "ab" "ab").2.2 (by decide)⟩

/-- Claim C8: the keyword-match score equals the ratio of matched
stop-word-filtered correct tokens (hence is at most 1.0), and when the
filtered correct-token set is empty the result is `(no match, 0.0)`. -/
theorem C8_keyword_score (candidate correct : String) (threshold : ℚ) :
    (keyword_match candidate correct threshold).2 =
      (if tokensSet (pyLower correct).data \ stopWords = ∅ then 0
       else (((tokensSet (pyLower correct).data \ stopWords) ∩
              tokensSet (pyLower candidate).data).card : ℚ) /
            ((tokensSet (pyLower correct).data \ stopWords).card : ℚ)) ∧
    (keyword_match candidate correct threshold).2 ≤ 1 ∧
    (tokensSet (pyLower correct).data \ stopWords = ∅ →
      keyword_match candidate correct threshold = (false, 0)) := by
  refine ⟨?_, keyword_match_snd_le_one candidate correct threshold, ?_⟩
  · by_cases hc : tokensSet (pyLower correct).data \ stopWords = ∅ <;>
      simp [keyword_match, hc]
  · intro h
    simp [keyword_match, h]

theorem C8_witness :
    (tokensSet (pyLower "was the a").data \ stopWords = ∅) ∧
    keyword_match "anything" "was the a" (3/5) = (false, 0) := by
  have hempty : tokensSet (pyLower "was the a").data \ stopWords = ∅ := by decide
  exact ⟨hempty, (C8_keyword_score "anything" "was the a" (3/5)).2.2 hempty⟩

/-- Claim C9, counterexample to the threshold part: with the identical
pair ("hello", "hello") and the out-of-range threshold 2, fuzzy grading
returns `is_correct = false`, whereas degrading to the documented fuzzy
default threshold 0.75 would return `is_correct = true` — so an
out-of-range threshold is used as given, not replaced by the default. -/
theorem C9_counterexample :
    (grade_answer "hello" "hello" "fuzzy" 2).is_correct = false ∧
    (grade_answer "hello" "hello" "fuzzy" (3/4)).is_correct = true := by
  have hsim : calculate_similarity "hello" "hello" = 1 := by
    simp only [calculate_similarity]
    rw [if_neg (by decide)]
    exact levScore_self _ (by decide)
  constructor
  · simp only [grade_answer]
    rw [if_neg (by decide), if_neg (by decide), if_pos (by decide)]
    simp only [fuzzy_match, hsim]
    exact decide_eq_false (by norm_num)
  · simp only [grade_answer]
    rw [if_neg (by decide), if_neg (by decide), if_pos (by decide)]
    simp only [fuzzy_match, hsim]
    exact decide_eq_true (by norm_num)

/-- Claim C9, amended: `grade_answer` totally handles every method string
— any method outside {exact, fuzzy, keyword} behaves exactly as fuzzy —
and it never raises for any threshold; but an out-of-range threshold is
applied as given rather than degraded to the documented fuzzy default. -/
theorem C9_unknown_method_is_fuzzy (candidate correct method : String) (threshold : ℚ)
    (h1 : method ≠ "exact") (h2 : method ≠ "fuzzy") (h3 : method ≠ "keyword") :
    grade_answer candidate correct method threshold =
      grade_answer candidate correct "fuzzy" threshold := by
  have e1 : (method == "exact") = false := by simpa using h1
  have e2 : (method == "fuzzy") = false := by simpa using h2
  have e3 : (method == "keyword") = false := by simpa using h3
  simp only [grade_answer, e1, e2, e3]
  rw [show (("fuzzy" : String) == "exact") = false from by decide,
    show (("fuzzy" : String) == "fuzzy") = true from by decide]
  simp

theorem C9_witness :
    ("levenshtein" : String) ≠ "exact" ∧ ("levenshtein" : String) ≠ "fuzzy" ∧
    ("levenshtein" : String) ≠ "keyword" ∧
    grade_answer "abc" "abcd" "levenshtein" (1/2) =
      grade_answer "abc" "abcd" "fuzzy" (1/2) :=
  ⟨by decide, by decide, by decide,
   C9_unknown_method_is_fuzzy "abc" "abcd" "levenshtein" (1/2)
     (by decide) (by decide) (by decide)⟩

/-- Claim C2: `grade_test` skips candidate answers whose question number
is absent from the correct-answer mapping (they count toward nothing and
do not appear in the per-question list); `total_questions` is the size of
the mapping regardless of the submission; the score is 0 for an empty
mapping; and `passed` holds exactly when the score reaches the passing
percentage, inclusive at the boundary. -/
theorem C2_grade_test_spec (cas : List CandidateAnswer) (d : List (Nat × String))
    (method : String) (threshold passing : ℚ)
    (hkeys : (d.map Prod.fst).Nodup) :
    grade_test cas d method threshold passing =
      grade_test (cas.filter (fun ad => (dictLookup d ad.question_number).isSome)) d
        method threshold passing ∧
    (grade_test cas d method threshold passing).total_questions = d.length ∧
    (d = [] → (grade_test cas d method threshold passing).score_percentage = 0) ∧
    (d ≠ [] → (grade_test cas d method threshold passing).score_percentage =
      100 * ((grade_test cas d method threshold passing).correct_answers : ℚ)
        / (d.length : ℚ)) ∧
    ((grade_test cas d method threshold passing).passed = true ↔
      passing ≤ (grade_test cas d method threshold passing).score_percentage) := by
  refine ⟨?_, rfl, ?_, ?_, ?_⟩
  · simp only [grade_test]
    rw [gradeLoop_filter]
  · intro h
    subst h
    simp [grade_test]
  · intro h
    have hp : 0 < d.length := List.length_pos.mpr h
    simp only [grade_test]
    rw [if_pos hp]
    ring
  · simp only [grade_test]
    exact decide_eq_true_iff

theorem C2_witness :
    (([(1, "A"), (2, "B")] : List (Nat × String)).map Prod.fst).Nodup ∧
    (grade_test [⟨3, "X"⟩, ⟨1, "a"⟩] [(1, "A"), (2, "B")] "fuzzy" (3/4) 60 =
      grade_test ([⟨3, "X"⟩, ⟨1, "a"⟩].filter
          (fun ad => (dictLookup [(1, "A"), (2, "B")] ad.question_number).isSome))
        [(1, "A"), (2, "B")] "fuzzy" (3/4) 60 ∧
    (grade_test [⟨3, "X"⟩, ⟨1, "a"⟩] [(1, "A"), (2, "B")] "fuzzy" (3/4) 60).total_questions =
      ([(1, "A"), (2, "B")] : List (Nat × String)).length ∧
    (([(1, "A"), (2, "B")] : List (Nat × String)) = [] →
      (grade_test [⟨3, "X"⟩, ⟨1, "a"⟩] [(1, "A"), (2, "B")] "fuzzy" (3/4) 60).score_percentage
        = 0) ∧
    (([(1, "A"), (2, "B")] : List (Nat × String)) ≠ [] →
      (grade_test [⟨3, "X"⟩, ⟨1, "a"⟩] [(1, "A"), (2, "B")] "fuzzy" (3/4) 60).score_percentage
        = 100 * ((grade_test [⟨3, "X"⟩, ⟨1, "a"⟩]
            [(1, "A"), (2, "B")] "fuzzy" (3/4) 60).correct_answers : ℚ)
          / (([(1, "A"), (2, "B")] : List (Nat × String)).length : ℚ)) ∧
    ((grade_test [⟨3, "X"⟩, ⟨1, "a"⟩] [(1, "A"), (2, "B")] "fuzzy" (3/4) 60).passed = true ↔
      60 ≤ (grade_test [⟨3, "X"⟩, ⟨1, "a"⟩]
        [(1, "A"), (2, "B")] "fuzzy" (3/4) 60).score_percentage)) :=
  ⟨by decide, C2_grade_test_spec [⟨3, "X"⟩, ⟨1, "a"⟩] [(1, "A"), (2, "B")]
    "fuzzy" (3/4) 60 (by decide)⟩

/-- Claim C3, counterexample to the range part: a candidate list that
repeats a graded question number makes `score_percentage` exceed 100 —
here two submissions for the single question give a score of 200. -/
theorem C3_counterexample :
    (grade_test [⟨1, "A"⟩, ⟨1, "A"⟩] [(1, "A")] "fuzzy" (3/4) 60).score_percentage = 200 ∧
    100 < (grade_test [⟨1, "A"⟩, ⟨1, "A"⟩] [(1, "A")] "fuzzy" (3/4) 60).score_percentage := by
  have hg : (gradeLoop [(1, "A")] "fuzzy" (3/4) [⟨1, "A"⟩, ⟨1, "A"⟩]).1 = 2 := by decide
  have hs : (grade_test [⟨1, "A"⟩, ⟨1, "A"⟩] [(1, "A")] "fuzzy" (3/4) 60).score_percentage
      = 200 := by
    simp only [grade_test, hg]
    norm_num
  exact ⟨hs, by rw [hs]; norm_num⟩

/-- Claim C3, amended: `score_percentage` always equals exactly
`100 × correct_count / total_questions` when the mapping is non-empty,
every similarity score in the report lies in [0,1], and the score lies in
[0,100] provided the submitted question numbers are distinct (a repeated
graded question number can push the score above 100). -/
theorem C3_invariants (cas : List CandidateAnswer) (d : List (Nat × String))
    (method : String) (threshold passing : ℚ) :
    (0 < d.length →
      (grade_test cas d method threshold passing).score_percentage =
        100 * ((grade_test cas d method threshold passing).correct_answers : ℚ)
          / (d.length : ℚ)) ∧
    (∀ g ∈ (grade_test cas d method threshold passing).graded_answers,
      0 ≤ g.similarity_score ∧ g.similarity_score ≤ 1) ∧
    ((cas.map (fun ad => ad.question_number)).Nodup →
      0 ≤ (grade_test cas d method threshold passing).score_percentage ∧
      (grade_test cas d method threshold passing).score_percentage ≤ 100) := by
  refine ⟨?_, ?_, ?_⟩
  · intro h
    simp only [grade_test]
    rw [if_pos h]
    ring
  · intro g hg
    exact gradeLoop_scores d method threshold cas g hg
  · intro hnd
    constructor
    · simp only [grade_test]
      split
      · positivity
      · exact le_refl 0
    · simp only [grade_test]
      split
      · rename_i hpos
        have hle := gradeLoop_fst_le_total d method threshold cas hnd
        have h1 : ((gradeLoop d method threshold cas).1 : ℚ) ≤ (d.length : ℚ) := by
          exact_mod_cast hle
        have h2 : (0 : ℚ) < (d.length : ℚ) := by exact_mod_cast hpos
        rw [div_mul_eq_mul_div, div_le_iff₀ h2]
        linarith
      · norm_num

theorem C3_witness :
    (0 < ([(1, "A"), (2, "B")] : List (Nat × String)).length →
      (grade_test [⟨1, "a"⟩] [(1, "A"), (2, "B")] "fuzzy" (3/4) 60).score_percentage =
        100 * ((grade_test [⟨1, "a"⟩]
          [(1, "A"), (2, "B")] "fuzzy" (3/4) 60).correct_answers : ℚ) / 2) ∧
    (([⟨1, "a"⟩] : List CandidateAnswer).map (fun ad => ad.question_number)).Nodup ∧
    (0 ≤ (grade_test [⟨1, "a"⟩] [(1, "A"), (2, "B")] "fuzzy" (3/4) 60).score_percentage ∧
      (grade_test [⟨1, "a"⟩] [(1, "A"), (2, "B")] "fuzzy" (3/4) 60).score_percentage ≤ 100) := by
  have h := C3_invariants [⟨1, "a"⟩] [(1, "A"), (2, "B")] "fuzzy" (3/4) 60
  exact ⟨fun hp => by simpa using h.1 hp, by decide, h.2.2 (by decide)⟩

/-! ## Multi-set parser claims -/

theorem cleanParts_mem (ps : List (List Char)) (p : List Char) (h : p ∈ cleanParts ps) :
    pstrip p = p ∧ p ≠ [] := by
  unfold cleanParts at h
  rw [List.mem_filter] at h
  obtain ⟨hm, hne⟩ := h
  rw [List.mem_map] at hm
  obtain ⟨q, _, rfl⟩ := hm
  refine ⟨pstrip_idem q, ?_⟩
  intro hx
  rw [hx] at hne
  simp at hne

/-- Claim C5: the Multi-Set Table Parser fails with the header error
before any row result whenever no line carries all three set markers; it
fails naming a set whose mapping is empty after the row scan; and on
success all three returned mappings are non-empty. -/
theorem C5_multi_set_errors (cs : List Char) :
    ((splitLines cs).any isHeaderLine = false →
      parse_multi_set cs = .error "Could not find SET A, SET B, SET C headers in PDF") ∧
    ((splitLines cs).any isHeaderLine = true →
      ((multiSetMaps cs).1 = [] →
        parse_multi_set cs = .error "No answers found for SET A. Please check PDF format.") ∧
      ((multiSetMaps cs).1 ≠ [] → (multiSetMaps cs).2.1 = [] →
        parse_multi_set cs = .error "No answers found for SET B. Please check PDF format.") ∧
      ((multiSetMaps cs).1 ≠ [] → (multiSetMaps cs).2.1 ≠ [] → (multiSetMaps cs).2.2 = [] →
        parse_multi_set cs = .error "No answers found for SET C. Please check PDF format.")) ∧
    (∀ r, parse_multi_set cs = .ok r → r.1 ≠ [] ∧ r.2.1 ≠ [] ∧ r.2.2 ≠ []) := by
  refine ⟨?_, ?_, ?_⟩
  · intro h
    simp [parse_multi_set, h]
  · intro h
    refine ⟨?_, ?_, ?_⟩
    · intro hA
      simp [parse_multi_set, h, hA]
    · intro hA hB
      simp [parse_multi_set, h, List.isEmpty_iff, hA, hB]
    · intro hA hB hC
      simp [parse_multi_set, h, List.isEmpty_iff, hA, hB, hC]
  · intro r hr
    simp only [parse_multi_set] at hr
    split at hr
    · cases hr
    · split at hr
      · cases hr
      · split at hr
        · cases hr
        · split at hr
          · cases hr
          · rename_i hA hB hC
            cases hr
            simp only [List.isEmpty_iff] at hA hB hC
            exact ⟨hA, hB, hC⟩

theorem C5_witness :
    ((splitLines "Q1\ta\tb\tc".data).any isHeaderLine = false) ∧
    parse_multi_set "Q1\ta\tb\tc".data =
      .error "Could not find SET A, SET B, SET C headers in PDF" :=
  ⟨by decide, (C5_multi_set_errors _).1 (by decide)⟩

/-- Claim C6, counterexample to the column-skip part: in the row
`1<TAB>A1<TAB><TAB>C1<TAB>D1` the SET B column is empty, but instead of
skipping only that column the parser filters the empty field out before
indexing, so SET B receives "C1" (the SET C value) and SET C receives
"D1" — the columns shift left rather than being skipped in place. -/
theorem C6_counterexample :
    multiSetMaps "SET A SET B SET C\n1\tA1\t\tC1\tD1".data =
      ([(1, "A1".data)], [(1, "C1".data)], [(1, "D1".data)]) := by
  decide

/-- Claim C6, amended: rows are split by tabs if present, else pipes,
else two-or-more-whitespace runs; the stripped fields are filtered to
drop empty ones before indexing, so a row is skipped when fewer than 4
non-empty fields remain, and the 2nd, 3rd and 4th non-empty fields are
recorded for SET A, SET B and SET C respectively (an empty column is
never skipped individually — later columns shift left instead, and the
per-column emptiness guards never fire). -/
theorem C6_row_columns (st : MSState) (line : List Char) (qn : Nat)
    (hns : (pstrip line).isEmpty = false)
    (hset : hasSub "SET".data (upperL (pstrip line)) = false)
    (hq : hasSub "Question".data (pstrip line) = false)
    (hnum : qNumParse (pstrip line) = some qn) :
    (∀ (p0 p1 p2 p3 : List Char) (rest : List (List Char)),
      cleanParts (splitRow line) = p0 :: p1 :: p2 :: p3 :: rest →
      rowStep st line =
        (dictInsert qn p1 st.1, dictInsert qn p2 st.2.1, dictInsert qn p3 st.2.2)) ∧
    ((cleanParts (splitRow line)).length < 4 → rowStep st line = st) := by
  constructor
  · intro p0 p1 p2 p3 rest hparts
    have hp1 := cleanParts_mem (splitRow line) p1 (by rw [hparts]; simp)
    have hp2 := cleanParts_mem (splitRow line) p2 (by rw [hparts]; simp)
    have hp3 := cleanParts_mem (splitRow line) p3 (by rw [hparts]; simp)
    have he1 : (pstrip p1).isEmpty = false := by
      rw [hp1.1]
      simpa [List.isEmpty_iff] using hp1.2
    have he2 : (pstrip p2).isEmpty = false := by
      rw [hp2.1]
      simpa [List.isEmpty_iff] using hp2.2
    have he3 : (pstrip p3).isEmpty = false := by
      rw [hp3.1]
      simpa [List.isEmpty_iff] using hp3.2
    have hq1 : p1.isEmpty = false := by simpa [List.isEmpty_iff] using hp1.2
    have hq2 : p2.isEmpty = false := by simpa [List.isEmpty_iff] using hp2.2
    have hq3 : p3.isEmpty = false := by simpa [List.isEmpty_iff] using hp3.2
    simp only [rowStep, hns, hset, hq, Bool.or_self, Bool.or_false, Bool.false_or,
      Bool.false_eq_true, if_false, hnum, hparts, he1, he2, he3, hq1, hq2, hq3,
      Bool.not_false, if_true, hp1.1, hp2.1, hp3.1]
  · intro hlen
    simp only [rowStep, hns, hset, hq, Bool.or_self, Bool.or_false, Bool.false_or,
      Bool.false_eq_true, if_false, hnum]
    rcases hcp : cleanParts (splitRow line) with _ | ⟨a, _ | ⟨b, _ | ⟨c, _ | ⟨e, rest2⟩⟩⟩⟩
    · rfl
    · rfl
    · rfl
    · rfl
    · exfalso
      rw [hcp] at hlen
      simp only [List.length_cons] at hlen
      omega

theorem C6_witness :
    (cleanParts (splitRow "1\ta\tb\tc".data) = [['1'], ['a'], ['b'], ['c']] ∧
      rowStep ([], [], []) "1\ta\tb\tc".data =
        (dictInsert 1 "a".data [], dictInsert 1 "b".data [], dictInsert 1 "c".data [])) ∧
    ((cleanParts (splitRow "1\t\tb".data)).length < 4 ∧
      rowStep ([], [], []) "1\t\tb".data = ([], [], [])) :=
  ⟨⟨by decide,
    (C6_row_columns ([], [], []) "1\ta\tb\tc".data 1
      (by decide) (by decide) (by decide) (by decide)).1 ['1'] ['a'] ['b'] ['c'] []
      (by decide)⟩,
   ⟨by decide,
    (C6_row_columns ([], [], []) "1\t\tb".data 1
      (by decide) (by decide) (by decide) (by decide)).2 (by decide)⟩⟩

/-- Claim C10: the row loop of the Multi-Set Table Parser silently skips
any line whose stripped form contains "SET" case-insensitively or
"Question" case-sensitively, so such rows contribute nothing to any of
the three sets. -/
theorem C10_set_question_skip (st : MSState) (line : List Char)
    (h : hasSub "SET".data (upperL (pstrip line)) = true ∨
         hasSub "Question".data (pstrip line) = true) :
    rowStep st line = st := by
  simp only [rowStep]
  rw [if_pos]
  rcases h with h | h <;> simp [h]

theorem C10_witness :
    (hasSub "SET".data (upperL (pstrip "1\tsettle\tb\tc".data)) = true ∨
     hasSub "Question".data (pstrip "1\tsettle\tb\tc".data) = true) ∧
    rowStep ([], [], []) "1\tsettle\tb\tc".data = ([], [], []) :=
  ⟨Or.inl (by decide), C10_set_question_skip ([], [], []) _ (Or.inl (by decide))⟩

/-! ## Question-parser cascade claim -/

/-- Claim C4, counterexample: on `"1. What\nQ2"` the strategy-1 regex
finds a match (`Q2`) whose processed block is empty, so `parse_questions`
returns the empty list without ever attempting strategy 2 — although
strategy 2 would have produced a record — contradicting "the first
strategy producing ≥1 record is adopted" and "whenever strategy 1
produces zero records, strategy 2 is still attempted".  And on `"1. "`
strategy 2 emits a record whose text is empty, contradicting "a record
with empty text is never emitted by any strategy". -/
theorem C4_counterexample :
    parse_questions "1. What\nQ2".data = [] ∧
    strat2Records "1. What\nQ2".data = [(1, "What Q2".data)] ∧
    parse_questions "1. ".data = [(1, [])] := by
  refine ⟨?_, ?_, ?_⟩
  · simp +decide [parse_questions, strat1Records, strat2Records, mcqScan, processBlock,
      blockLoop, blockOpts, blockFull, splitLines, splitChar, joinSep, pstrip, pyWs, qpos,
      optionMatch, s2FindFrom, tryStarter, tryStarterQ, digitsSepParse, bpos, nlpos,
      collapseWs]
  · simp +decide [strat2Records, s2FindFrom, tryStarter, tryStarterQ, digitsSepParse, bpos,
      nlpos, collapseWs, pstrip, pyWs]
  · simp +decide [parse_questions, strat1Records, strat2Records, mcqScan, s2FindFrom,
      tryStarter, tryStarterQ, digitsSepParse, bpos, nlpos, collapseWs, pstrip, pyWs]

/-- Claim C4, amended: `parse_questions` adopts strategy 1 whenever the
strategy-1 regex finds at least one match — even when zero records
survive, in which case the empty result is returned and strategies 2 and
3 are never attempted; strategy 2 runs only when the strategy-1 regex
finds nothing, and strategy 3 only when strategy 2 additionally yields no
record; strategies 1 and 3 never emit a record with empty text (strategy
2 can). -/
theorem C4_cascade (cs : List Char) :
    (mcqScan cs ≠ [] → parse_questions cs = strat1Records cs) ∧
    (mcqScan cs = [] → strat2Records cs ≠ [] → parse_questions cs = strat2Records cs) ∧
    (mcqScan cs = [] → strat2Records cs = [] → parse_questions cs = strat3Records cs) ∧
    (∀ p ∈ strat1Records cs, p.2 ≠ []) ∧
    (∀ p ∈ strat3Records cs, p.2 ≠ []) := by
  refine ⟨?_, ?_, ?_, strat1_no_empty cs, strat3_no_empty cs⟩
  · intro h
    simp [parse_questions, List.isEmpty_iff, h]
  · intro h1 h2
    simp [parse_questions, List.isEmpty_iff, h1, h2]
  · intro h1 h2
    simp [parse_questions, List.isEmpty_iff, h1, h2]

theorem C4_witness :
    (mcqScan "Q1\nfoo".data ≠ [] ∧
      parse_questions "Q1\nfoo".data = strat1Records "Q1\nfoo".data) ∧
    (mcqScan "1. x".data = [] ∧ strat2Records "1. x".data ≠ [] ∧
      parse_questions "1. x".data = strat2Records "1. x".data) := by
  have ha : mcqScan "Q1\nfoo".data ≠ [] := by simp +decide [mcqScan]
  have h1 : mcqScan "1. x".data = [] := by simp +decide [mcqScan]
  have h2 : strat2Records "1. x".data ≠ [] := by
    simp +decide [strat2Records, s2FindFrom, tryStarter, tryStarterQ, digitsSepParse, bpos,
      nlpos, collapseWs, pstrip, pyWs]
  exact ⟨⟨ha, (C4_cascade _).1 ha⟩, ⟨h1, h2, (C4_cascade _).2.1 h1 h2⟩⟩
